import Mathlib

/-!
Shallow embedding of `RuntimeBitset` (src/lib/RuntimeBitset/RuntimeBitset.hpp,
namespace `RunBitset`) and verification of the frozen claims about it.

Machine words (`std::size_t`, 64 bits on the target platform) are modelled as
`Nat` values `< 2 ^ 64`; left shifts are truncated with an explicit `% 2 ^ 64`.
A native C++ shift whose count is `≥ BLOCK_SIZE` has undefined behaviour; such
a shift is modelled as `none` (see `shlW` / `shrW`), so an operation that
evaluates one returns `none` instead of a result.

The raw owned arrays `m_bits` / `m_mask` are modelled as `List Nat`.  A fresh
`new std::size_t[n]` allocation is uninitialized, so every construction path
takes an explicit `alloc : List Nat` parameter holding the arbitrary contents
the allocator happened to return (functions that call `clean()` afterwards are
insensitive to it).
-/

namespace RunBitset

/-- The four exception kinds of namespace `RunBitsetException` (the source
spells the mismatch exception `RuntimeBitsetSizeDismatch`). -/
inductive Err where
  | invalidSize
  | outOfRange
  | sizeDismatch
  | unknownChar
deriving DecidableEq

/-- `BLOCK_SIZE = sizeof(std::size_t) * 8`: bits per storage block. -/
def BLOCK_SIZE : Nat := 64

/-- `ALL_BITS_ONE = ~0` as a 64-bit word. -/
def ALL_BITS_ONE : Nat := 2 ^ BLOCK_SIZE - 1

/-- The class `RuntimeBitset`: data blocks, significant-bit masks, logical bit
count `m_size`, block count `m_blocks`.  Null array pointers are modelled as
empty lists. -/
structure RuntimeBitset where
  m_bits : List Nat
  m_mask : List Nat
  m_size : Nat
  m_blocks : Nat
deriving DecidableEq

/-- `getNumberBlocks`: the source counts iterations of
`for (i = 0; i < t_size; i += BLOCK_SIZE)`, i.e. `⌈t_size / BLOCK_SIZE⌉`. -/
def getNumberBlocks (t_size : Nat) : Nat :=
  (t_size + (BLOCK_SIZE - 1)) / BLOCK_SIZE

/-- `getLastMask`: `ALL_BITS_ONE >> (BLOCK_SIZE - t_number_bits)`. -/
def getLastMask (t_number_bits : Nat) : Nat :=
  ALL_BITS_ONE >>> (BLOCK_SIZE - t_number_bits)

/-- `buildMask`: every block's mask is `ALL_BITS_ONE`, then the most
significant block's mask is overwritten with
`getLastMask (m_size - (m_blocks - 1) * BLOCK_SIZE)`. -/
def buildMask (t_size t_blocks : Nat) : List Nat :=
  (List.replicate t_blocks ALL_BITS_ONE).set (t_blocks - 1)
    (getLastMask (t_size - (t_blocks - 1) * BLOCK_SIZE))

/-- `buildBlocks` allocates `n` uninitialized words (`new std::size_t[n]`):
modelled by the arbitrary allocator contents `alloc`, each entry reduced to
word width, padded with zeros if `alloc` is too short. -/
def buildBlocks (n : Nat) (alloc : List Nat) : List Nat :=
  (alloc.map (fun a => a % 2 ^ BLOCK_SIZE) ++ List.replicate n 0).take n

/-- `build`: throws `InvalidSize` on size 0, otherwise (after `destroy()`,
whose effect is subsumed by returning a fresh record) sets `m_size`,
`m_blocks`, allocates the blocks (uninitialized!) and builds the masks. -/
def build (t_size : Nat) (alloc : List Nat) : Except Err RuntimeBitset :=
  if t_size = 0 then .error .invalidSize
  else
    .ok { m_bits := buildBlocks (getNumberBlocks t_size) alloc
          m_mask := buildMask t_size (getNumberBlocks t_size)
          m_size := t_size
          m_blocks := getNumberBlocks t_size }

/-- `clean()`: writes 0 into every block (`for i < m_blocks`). -/
def clean (v : RuntimeBitset) : RuntimeBitset :=
  { v with m_bits := List.replicate v.m_blocks 0 }

/-- `destroy()`: deletes both arrays (null pointers = empty lists) and zeroes
both scalars. -/
def destroy (_v : RuntimeBitset) : RuntimeBitset :=
  { m_bits := [], m_mask := [], m_size := 0, m_blocks := 0 }

/-- Constructor `RuntimeBitset(t_size)`: `build(t_size); clean();`. -/
def ofSize (t_size : Nat) (alloc : List Nat) : Except Err RuntimeBitset :=
  (build t_size alloc).map clean

/-- Constructor `RuntimeBitset(t_size, t_num)`: `build(t_size)` followed by
`m_bits[0] = t_num` — note there is NO `clean()`, so blocks other than
block 0 keep the allocator garbage. The `t_num` argument is a `std::size_t`,
hence reduced to word width. -/
def ofSizeNum (t_size t_num : Nat) (alloc : List Nat) : Except Err RuntimeBitset :=
  (build t_size alloc).map
    (fun v => { v with m_bits := v.m_bits.set 0 (t_num % 2 ^ BLOCK_SIZE) })

/-- `getMaskPosition`: a word with exactly bit `t_position` set. -/
def getMaskPosition (t_position : Nat) : Nat := 1 <<< t_position

/-- `getPosition`: throws `OutOfRange` for `t_position ≥ m_size`; otherwise
the source's `while (t_position >= BLOCK_SIZE)` loop computes the quotient
and remainder of `t_position` by `BLOCK_SIZE`. -/
def getPosition (v : RuntimeBitset) (t_position : Nat) : Except Err (Nat × Nat) :=
  if v.m_size ≤ t_position then .error .outOfRange
  else .ok (t_position / BLOCK_SIZE, getMaskPosition (t_position % BLOCK_SIZE))

/-- `getValueInPosition` / `test` / `operator[] const`: single-bit read
(`auxBlock = m_bits[block] & positionMask; return (auxBlock | 0) != 0`). -/
def test (v : RuntimeBitset) (t_position : Nat) : Except Err Bool :=
  (getPosition v t_position).map (fun p =>
    if (v.m_bits.getD p.1 0 &&& p.2) ||| 0 = 0 then false else true)

/-- `set(t_position)`: OR the single-bit mask into the addressed block. -/
def setPos (v : RuntimeBitset) (t_position : Nat) : Except Err RuntimeBitset :=
  (getPosition v t_position).map (fun p =>
    { v with m_bits := v.m_bits.set p.1 (v.m_bits.getD p.1 0 ||| p.2) })

/-- `set()`: writes `ALL_BITS_ONE` into every block — including the
non-significant high bits of the last block. -/
def setAll (v : RuntimeBitset) : RuntimeBitset :=
  { v with m_bits := List.replicate v.m_blocks ALL_BITS_ONE }

/-- The per-block population-count loop of `count()`:
64 iterations of `if (block % 2 != 0) ++n; block >>= 1;`. -/
def popcountLoop : Nat → Nat → Nat
  | _, 0 => 0
  | block, j + 1 => (if block % 2 ≠ 0 then 1 else 0) + popcountLoop (block / 2) j

/-- The block loop of `count()`: sums `popcountLoop (m_bits[i] & m_mask[i])`
over all blocks (both lists have length `m_blocks`). -/
def countGo : List Nat → List Nat → Nat
  | b :: bs, m :: ms => popcountLoop (b &&& m) BLOCK_SIZE + countGo bs ms
  | _, _ => 0

/-- `count()`: population count of the masked blocks. -/
def countFn (v : RuntimeBitset) : Nat := countGo v.m_bits v.m_mask

/-- The block loop of `all()`: false as soon as
`(m_bits[i] & m_mask[i]) != m_mask[i]`. -/
def allGo : List Nat → List Nat → Bool
  | b :: bs, m :: ms => if b &&& m ≠ m then false else allGo bs ms
  | _, _ => true

/-- `all()`. -/
def allFn (v : RuntimeBitset) : Bool := allGo v.m_bits v.m_mask

/-- The block loop of `any()`: true as soon as
`(m_bits[i] & m_mask[i]) != 0`. -/
def anyGo : List Nat → List Nat → Bool
  | b :: bs, m :: ms => if b &&& m ≠ 0 then true else anyGo bs ms
  | _, _ => false

/-- `any()`. -/
def anyFn (v : RuntimeBitset) : Bool := anyGo v.m_bits v.m_mask

/-- The block loop of `none()`: false as soon as
`(m_bits[i] & m_mask[i]) != 0`. -/
def noneGo : List Nat → List Nat → Bool
  | b :: bs, m :: ms => if b &&& m ≠ 0 then false else noneGo bs ms
  | _, _ => true

/-- `none()`. -/
def noneFn (v : RuntimeBitset) : Bool := noneGo v.m_bits v.m_mask

/-- Inner character loop of `to_string()` for one block, starting from
`block = m_bits[i] & m_mask[i]` and `mask = m_mask[i]`: for each of the
`BLOCK_SIZE` steps, if the mask's low bit is set emit `'1'` or `'0'`
according to the block's low bit, then shift both right.  The source
accumulates into a buffer that is reversed afterwards; this returns the
unreversed (LSB-first) character list. -/
def blockChars : Nat → Nat → Nat → List Char
  | _, _, 0 => []
  | block, mask, j + 1 =>
    (if mask % 2 ≠ 0 then [if block % 2 ≠ 0 then '1' else '0'] else [])
      ++ blockChars (block / 2) (mask / 2) j

/-- Outer loop of `to_string()`: blocks are visited from the most significant
down to block 0, each contributing its reversed (MSB-first) character list.
`toStringGo (b :: bs) (m :: ms)` places the higher blocks' characters first,
matching the source's descending `for (i = m_blocks - 1; i >= 0; --i)`. -/
def toStringGo : List Nat → List Nat → List Char
  | b :: bs, m :: ms =>
    toStringGo bs ms ++ (blockChars (b &&& m) m BLOCK_SIZE).reverse
  | _, _ => []

/-- `to_string()`: big-endian binary text of the masked bits. -/
def to_string (v : RuntimeBitset) : List Char := toStringGo v.m_bits v.m_mask

/-- `buildFromString`'s character loop: character at string index `i` maps to
logical bit `sizeAux - i` (`sizeAux = length - 1`); `'1'` sets the bit, `'0'`
is skipped (leaving whatever the uninitialized block held!), anything else
throws `UnknownCharacter`. -/
def buildFromStringGo : List Char → Nat → Nat → RuntimeBitset → Except Err RuntimeBitset
  | [], _, _, v => .ok v
  | c :: rest, i, sizeAux, v =>
    if c = '1' then
      match setPos v (sizeAux - i) with
      | .error e => .error e
      | .ok v2 => buildFromStringGo rest (i + 1) sizeAux v2
    else if c = '0' then buildFromStringGo rest (i + 1) sizeAux v
    else .error .unknownChar

/-- `buildFromString`: `destroy(); build(t_string.size());` then the character
loop.  Note there is NO `clean()` after `build`, so bits at `'0'` characters
keep the allocator garbage `alloc`. -/
def buildFromString (t_string : List Char) (alloc : List Nat) : Except Err RuntimeBitset :=
  match build t_string.length alloc with
  | .error e => .error e
  | .ok v0 => buildFromStringGo t_string 0 (t_string.length - 1) v0

/-- Static `copy(t_copy, t_toCopy)` for distinct objects: destroy the
destination, `build` it at the source's size (fresh uninitialized allocation
`alloc`), then copy every block `i < t_copy.m_blocks` from the source. -/
def copyFrom (t_toCopy : RuntimeBitset) (alloc : List Nat) : Except Err RuntimeBitset :=
  (build t_toCopy.m_size alloc).map (fun c =>
    { c with m_bits := (List.range c.m_blocks).map (fun i => t_toCopy.m_bits.getD i 0) })

/-- `operator=` specialized to self-assignment `v = v`, i.e.
`copy(*this, *this)`: after `t_copy.destroy()` the aliased `t_toCopy.size()`
reads 0, so `t_copy.build(0)` throws `InvalidSize` and the object stays in
the destroyed state.  The pair's second component records a thrown
exception. -/
def selfCopyAssign (v : RuntimeBitset) (alloc : List Nat) : RuntimeBitset × Option Err :=
  let d := destroy v
  match build d.m_size alloc with
  | .error e => (d, some e)
  | .ok c =>
    ({ c with m_bits := (List.range c.m_blocks).map (fun i => d.m_bits.getD i 0) }, none)

/-- Native 64-bit right shift `x >> c`: undefined (`none`) when the count
reaches the word width, as for the C++ built-in shift operators. -/
def shrW (x c : Nat) : Option Nat :=
  if BLOCK_SIZE ≤ c then none else some (x >>> c)

/-- Native 64-bit left shift `x << c`, truncated to word width: undefined
(`none`) when the count reaches the word width. -/
def shlW (x c : Nat) : Option Nat :=
  if BLOCK_SIZE ≤ c then none else some ((x <<< c) % 2 ^ BLOCK_SIZE)

/-- `shiftBlocksLeft`: for `i = m_blocks - 1` down to 0, move block `i`'s
masked content to block `i + t_pos` when in range, then zero block `i`.
The fuel argument `n` encodes the descending index `i = n - 1`. -/
def shiftBlocksLeftGo (mask : List Nat) (q blocks : Nat) : List Nat → Nat → List Nat
  | bits, 0 => bits
  | bits, n + 1 =>
    let bits1 := if n + q < blocks
      then bits.set (n + q) (bits.getD n 0 &&& mask.getD n 0) else bits
    shiftBlocksLeftGo mask q blocks (bits1.set n 0) n

/-- `shiftBlocksRight`: for `i = 0` to `m_blocks - 1`, move block `i`'s
masked content to block `i - t_pos` when `i - t_pos ≥ 0`, then zero block
`i`.  With fuel `n` the current index is `i = blocks - n`. -/
def shiftBlocksRightGo (mask : List Nat) (q blocks : Nat) : List Nat → Nat → List Nat
  | bits, 0 => bits
  | bits, n + 1 =>
    let i := blocks - (n + 1)
    let bits1 := if q ≤ i
      then bits.set (i - q) (bits.getD i 0 &&& mask.getD i 0) else bits
    shiftBlocksRightGo mask q blocks (bits1.set i 0) n

/-- Intra-block pass of `bitwiseLeft`, descending `i = m_blocks - 1 … 0`
(fuel `n` encodes `i = n - 1`):
`remain = (m_bits[i] & m_mask[i]) >> (BLOCK_SIZE - t_pos)`,
`m_bits[i] = (m_bits[i] & m_mask[i]) << t_pos`, then
`m_bits[i+1] |= remain` when `i + 1 < m_blocks`.  The loop runs even when
`t_pos == 0`, in which case the `remain` computation is a native shift by the
full word width — undefined, hence `none`. -/
def bwLeftGo (mask : List Nat) (r blocks : Nat) : List Nat → Nat → Option (List Nat)
  | bits, 0 => some bits
  | bits, n + 1 =>
    let masked := bits.getD n 0 &&& mask.getD n 0
    match shrW masked (BLOCK_SIZE - r), shlW masked r with
    | some remain, some newb =>
      let bits1 := bits.set n newb
      let bits2 := if n + 1 < blocks
        then bits1.set (n + 1) (bits1.getD (n + 1) 0 ||| remain) else bits1
      bwLeftGo mask r blocks bits2 n
    | _, _ => none

/-- Intra-block pass of `bitwiseRight`, ascending `i = 0 … m_blocks - 1`
(with fuel `n` the current index is `i = blocks - n`):
`remain = (m_bits[i] & m_mask[i]) << (BLOCK_SIZE - t_pos)`,
`m_bits[i] = (m_bits[i] & m_mask[i]) >> t_pos`, then
`m_bits[i-1] |= remain` when `i ≥ 1`.  As on the left, `t_pos == 0` makes the
`remain` computation a native shift by the full word width — undefined. -/
def bwRightGo (mask : List Nat) (r blocks : Nat) : List Nat → Nat → Option (List Nat)
  | bits, 0 => some bits
  | bits, n + 1 =>
    let i := blocks - (n + 1)
    let masked := bits.getD i 0 &&& mask.getD i 0
    match shlW masked (BLOCK_SIZE - r), shrW masked r with
    | some remain, some newb =>
      let bits1 := bits.set i newb
      let bits2 := if 0 < i
        then bits1.set (i - 1) (bits1.getD (i - 1) 0 ||| remain) else bits1
      bwRightGo mask r blocks bits2 n
    | _, _ => none

/-- `bitwiseLeft(t_pos)`: the `while (t_pos >= BLOCK_SIZE)` loop splits the
shift into whole blocks (`blockWise = t_pos / 64`) and the remainder
`t_pos % 64`; `shiftBlocksLeft` runs only when `blockWise > 0`, then the
intra-block pass runs unconditionally. -/
def bitwiseLeft (v : RuntimeBitset) (t_pos : Nat) : Option RuntimeBitset :=
  let blockWise := t_pos / BLOCK_SIZE
  let r := t_pos % BLOCK_SIZE
  let bits0 := if 0 < blockWise
    then shiftBlocksLeftGo v.m_mask blockWise v.m_blocks v.m_bits v.m_blocks
    else v.m_bits
  (bwLeftGo v.m_mask r v.m_blocks bits0 v.m_blocks).map
    (fun b => { v with m_bits := b })

/-- `bitwiseRight(t_pos)`: mirror of `bitwiseLeft`. -/
def bitwiseRight (v : RuntimeBitset) (t_pos : Nat) : Option RuntimeBitset :=
  let blockWise := t_pos / BLOCK_SIZE
  let r := t_pos % BLOCK_SIZE
  let bits0 := if 0 < blockWise
    then shiftBlocksRightGo v.m_mask blockWise v.m_blocks v.m_bits v.m_blocks
    else v.m_bits
  (bwRightGo v.m_mask r v.m_blocks bits0 v.m_blocks).map
    (fun b => { v with m_bits := b })

/-- `operator<<` copies the receiver (copy constructor) and applies
`bitwiseLeft` to the copy; since values here are immutable the copy is the
value itself.  `operator<<=` applies `bitwiseLeft` to the receiver
directly. -/
def opShl (v : RuntimeBitset) (t_pos : Nat) : Option RuntimeBitset :=
  bitwiseLeft v t_pos

/-- `operator>>` / `operator>>=`: as `opShl`, via `bitwiseRight`. -/
def opShr (v : RuntimeBitset) (t_pos : Nat) : Option RuntimeBitset :=
  bitwiseRight v t_pos

/-- Friend `operator&`: throws `SizeDismatch` when the operands' sizes differ
— before any block is read — otherwise builds `aux(t_1.size())` and fills
every block `i < aux.m_blocks` with `t_1.m_bits[i] & t_2.m_bits[i]`. -/
def opAnd (t_1 t_2 : RuntimeBitset) (alloc : List Nat) : Except Err RuntimeBitset :=
  if t_1.m_size ≠ t_2.m_size then .error .sizeDismatch
  else (ofSize t_1.m_size alloc).map (fun aux =>
    let bs := (List.range aux.m_blocks).map
      (fun i => t_1.m_bits.getD i 0 &&& t_2.m_bits.getD i 0)
    { aux with m_bits := bs })

/-- Friend `operator|`: as `opAnd` with `|`. -/
def opOr (t_1 t_2 : RuntimeBitset) (alloc : List Nat) : Except Err RuntimeBitset :=
  if t_1.m_size ≠ t_2.m_size then .error .sizeDismatch
  else (ofSize t_1.m_size alloc).map (fun aux =>
    let bs := (List.range aux.m_blocks).map
      (fun i => t_1.m_bits.getD i 0 ||| t_2.m_bits.getD i 0)
    { aux with m_bits := bs })

/-- Friend `operator^`: as `opAnd` with `^`. -/
def opXor (t_1 t_2 : RuntimeBitset) (alloc : List Nat) : Except Err RuntimeBitset :=
  if t_1.m_size ≠ t_2.m_size then .error .sizeDismatch
  else (ofSize t_1.m_size alloc).map (fun aux =>
    let bs := (List.range aux.m_blocks).map
      (fun i => t_1.m_bits.getD i 0 ^^^ t_2.m_bits.getD i 0)
    { aux with m_bits := bs })

/-- `operator&=`: `*this = *this & t_other`.  If `operator&` throws, the
exception propagates before the copy assignment runs and the receiver is
unchanged; otherwise the binary result is copy-assigned back (should that
copy's `build` throw — unreachable, the result's size is positive — the
receiver would be left destroyed, as in `copy`). -/
def opAndEq (a b : RuntimeBitset) (alloc : List Nat) : RuntimeBitset × Option Err :=
  match opAnd a b alloc with
  | .error e => (a, some e)
  | .ok r =>
    match copyFrom r alloc with
    | .error e => (destroy a, some e)
    | .ok a2 => (a2, none)

/-- `operator|=`: as `opAndEq`. -/
def opOrEq (a b : RuntimeBitset) (alloc : List Nat) : RuntimeBitset × Option Err :=
  match opOr a b alloc with
  | .error e => (a, some e)
  | .ok r =>
    match copyFrom r alloc with
    | .error e => (destroy a, some e)
    | .ok a2 => (a2, none)

/-- `operator^=`: as `opAndEq`. -/
def opXorEq (a b : RuntimeBitset) (alloc : List Nat) : RuntimeBitset × Option Err :=
  match opXor a b alloc with
  | .error e => (a, some e)
  | .ok r =>
    match copyFrom r alloc with
    | .error e => (destroy a, some e)
    | .ok a2 => (a2, none)

/-- Structural well-formedness maintained by every successful construction:
positive size, block count and mask derived from the size, and a data array
of `m_blocks` words. -/
def WF (v : RuntimeBitset) : Prop :=
  1 ≤ v.m_size ∧ v.m_blocks = getNumberBlocks v.m_size ∧
    v.m_mask = buildMask v.m_size v.m_blocks ∧ v.m_bits.length = v.m_blocks

instance (v : RuntimeBitset) : Decidable (WF v) := by
  unfold WF; infer_instance

/-- The value `RuntimeBitset(8, 255)` (one block, bits 0–7 set; the single
block doubles as the last block, mask `0xFF`). -/
def sample8 : RuntimeBitset := ⟨[255], [255], 8, 1⟩

/-- The value `RuntimeBitset(70, 1)` with the second block zero (as a clean
allocation would leave it): two blocks, masks `⟨~0, 0x3F⟩`. -/
def sample70 : RuntimeBitset := ⟨[1, 0], [ALL_BITS_ONE, 63], 70, 2⟩

theorem sample8_spec : ofSizeNum 8 255 [] = .ok sample8 := rfl

theorem sample70_spec : ofSizeNum 70 1 [0, 0] = .ok sample70 := rfl

theorem sample8_wf : WF sample8 := by decide

theorem sample70_wf : WF sample70 := by decide

/-- Shared helper: `operator&` on operands of different sizes throws. -/
theorem opAnd_mismatch (a b : RuntimeBitset) (alloc : List Nat)
    (h : a.m_size ≠ b.m_size) : opAnd a b alloc = .error .sizeDismatch := by
  unfold opAnd; rw [if_pos h]

/-- Shared helper: `operator|` on operands of different sizes throws. -/
theorem opOr_mismatch (a b : RuntimeBitset) (alloc : List Nat)
    (h : a.m_size ≠ b.m_size) : opOr a b alloc = .error .sizeDismatch := by
  unfold opOr; rw [if_pos h]

/-- Shared helper: `operator^` on operands of different sizes throws. -/
theorem opXor_mismatch (a b : RuntimeBitset) (alloc : List Nat)
    (h : a.m_size ≠ b.m_size) : opXor a b alloc = .error .sizeDismatch := by
  unfold opXor; rw [if_pos h]

/-- C1: the claim says that for `r = k mod wordBits = 0` the intra-block
shift step is bypassed, so a native shift by the full word width is never
invoked.  The code does NOT bypass it: with `k = 0` both `bitwiseLeft` and
`bitwiseRight` evaluate `(m_bits[i] & m_mask[i]) >> (BLOCK_SIZE - 0)` resp.
`… << (BLOCK_SIZE - 0)` — a native shift by the full word width, undefined
behaviour, modelled as `none`. -/
theorem bitwise_r_zero_invokes_full_width_shift :
    bitwiseLeft sample8 0 = none ∧ bitwiseRight sample8 0 = none :=
  ⟨rfl, rfl⟩

/-- C2: the claim says `v << 0` and `v >> 0` are the identity.  They are not:
both evaluate a native shift by the full word width (undefined behaviour),
so no defined result — let alone `v` itself — is produced. -/
theorem shift_by_zero_is_undefined :
    opShl sample70 0 = none ∧ opShr sample70 0 = none :=
  ⟨rfl, rfl⟩

/-- C3: the claim says every shift by `k ≥ length` yields an all-zero vector.
For `k ≥ length` with `k` a multiple of `wordBits` (here `N = 8`, `k = 64`)
the intra-block pass still runs with `r = 0` and evaluates a native shift by
the full word width — undefined behaviour — so no all-zero vector is
produced. -/
theorem shift_ge_length_undefined_on_word_multiple :
    opShl sample8 64 = none ∧ opShr sample8 64 = none :=
  ⟨rfl, rfl⟩

/-- The vector `RuntimeBitset(70, 0)` built over an allocation whose second
word was 1: block 0 was assigned the seed, block 1 keeps the garbage. -/
def seeded70 : RuntimeBitset := ⟨[0, 1], [ALL_BITS_ONE, 63], 70, 2⟩

/-- C4: the claim says `BitVector(size, seed)` leaves every higher block zero
so `test(pos)` is false for `pos ≥ wordBits`.  The constructor never calls
`clean()`: the blocks above block 0 keep whatever the uninitialized
allocation contained, and `test(64)` reads that garbage as a set bit. -/
theorem seeded_ctor_keeps_allocator_garbage :
    ofSizeNum 70 0 [0, 1] = .ok seeded70 ∧ test seeded70 64 = .ok true :=
  ⟨rfl, rfl⟩

/-- The 1-bit vector holding a cleared bit (`RuntimeBitset(1)`), whose
`to_string` is `"0"`. -/
def oneBitZero : RuntimeBitset := ⟨[0], [1], 1, 1⟩

/-- What `buildFromString` makes of the string `"0"` over an allocation whose
first word was 1: the `'0'` character is skipped, so the garbage bit
survives. -/
def oneBitGarbage : RuntimeBitset := ⟨[1], [1], 1, 1⟩

/-- C5: the claim says `fromString(toString(v))` equals `v` bit-for-bit for
every vector.  `buildFromString` never calls `clean()` after `build`, so bits
at `'0'` characters keep the uninitialized allocation's contents: parsing the
string `"0"` (the text form of `oneBitZero`) over a nonzero allocation yields
a vector whose bit 0 reads 1, while the original's bit 0 reads 0. -/
theorem roundtrip_fails_on_allocator_garbage :
    to_string oneBitZero = ['0'] ∧
      buildFromString (to_string oneBitZero) [1] = .ok oneBitGarbage ∧
      test oneBitGarbage 0 = .ok true ∧ test oneBitZero 0 = .ok false :=
  ⟨rfl, rfl, rfl, rfl⟩

/-- C7: binary `&`, `|`, `^` on operands of different sizes throw
`SizeDismatch`; the check precedes the result construction and the block
loop, and the (const-qualified, purely functional here) operands are not
touched. -/
theorem mismatched_binary_ops_throw (a b : RuntimeBitset) (alloc : List Nat)
    (h : a.m_size ≠ b.m_size) :
    opAnd a b alloc = .error .sizeDismatch ∧
      opOr a b alloc = .error .sizeDismatch ∧
      opXor a b alloc = .error .sizeDismatch :=
  ⟨opAnd_mismatch a b alloc h, opOr_mismatch a b alloc h, opXor_mismatch a b alloc h⟩

theorem mismatched_binary_ops_throw_witness :
    sample8.m_size ≠ sample70.m_size ∧
      (opAnd sample8 sample70 [] = .error .sizeDismatch ∧
        opOr sample8 sample70 [] = .error .sizeDismatch ∧
        opXor sample8 sample70 [] = .error .sizeDismatch) :=
  ⟨by decide, mismatched_binary_ops_throw sample8 sample70 [] (by decide)⟩

/-- C8: self-assignment `v = v` runs `copy(*this, *this)`: `destroy()` frees
the arrays and zeroes the scalars, then `build(t_toCopy.size())` reads the
aliased — now zero — size and throws `InvalidSize`, leaving the object with
length 0 and no blocks (violating the `length ≥ 1` invariant). -/
theorem self_assignment_destroys (v : RuntimeBitset) (alloc : List Nat) :
    selfCopyAssign v alloc = (⟨[], [], 0, 0⟩, some .invalidSize) :=
  rfl

/-- C9: compound `&=`, `|=`, `^=` on operands of different sizes: the
underlying binary operator throws `SizeDismatch` before the result is
assigned back, so the exception propagates and the receiver keeps its old
state (the returned vector is `a` itself). -/
theorem mismatched_compound_ops_throw (a b : RuntimeBitset) (alloc : List Nat)
    (h : a.m_size ≠ b.m_size) :
    opAndEq a b alloc = (a, some .sizeDismatch) ∧
      opOrEq a b alloc = (a, some .sizeDismatch) ∧
      opXorEq a b alloc = (a, some .sizeDismatch) := by
  refine ⟨?_, ?_, ?_⟩
  · unfold opAndEq; rw [opAnd_mismatch a b alloc h]
  · unfold opOrEq; rw [opOr_mismatch a b alloc h]
  · unfold opXorEq; rw [opXor_mismatch a b alloc h]

theorem mismatched_compound_ops_throw_witness :
    sample70.m_size ≠ sample8.m_size ∧
      (opAndEq sample70 sample8 [] = (sample70, some .sizeDismatch) ∧
        opOrEq sample70 sample8 [] = (sample70, some .sizeDismatch) ∧
        opXorEq sample70 sample8 [] = (sample70, some .sizeDismatch)) :=
  ⟨by decide, mismatched_compound_ops_throw sample70 sample8 [] (by decide)⟩

/-- Halving distributes over bitwise and. -/
theorem land_div_two (a b : Nat) : (a &&& b) / 2 = a / 2 &&& b / 2 := by
  apply Nat.eq_of_testBit_eq
  intro i
  rw [Nat.testBit_div_two, Nat.testBit_and, Nat.testBit_and,
    Nat.testBit_div_two, Nat.testBit_div_two]

/-- Masking twice is the same as masking once. -/
theorem land_land_self (a b : Nat) : (a &&& b) &&& b = a &&& b := by
  rw [Nat.and_assoc, Nat.and_self]

/-- A value invariant under masking has its low bit dominated by the mask's
low bit. -/
theorem odd_of_land_eq {y m : Nat} (h : y &&& m = y) (hy : y % 2 = 1) :
    m % 2 = 1 := by
  have h0 : (y &&& m).testBit 0 = y.testBit 0 := by rw [h]
  rw [Nat.testBit_and] at h0
  have hyt : y.testBit 0 = true := by simp [Nat.testBit_zero, hy]
  rw [hyt, Bool.true_and] at h0
  simpa [Nat.testBit_zero] using h0

/-- Counting `'1'` characters emitted by `to_string`'s per-block loop agrees
with `count`'s per-block popcount, for a block value already reduced by its
mask. -/
theorem blockChars_count_ones (j : Nat) :
    ∀ y m : Nat, y &&& m = y →
      (blockChars y m j).count '1' = popcountLoop y j := by
  induction j with
  | zero => intro y m _; rfl
  | succ j ih =>
    intro y m hym
    have hdiv : y / 2 &&& m / 2 = y / 2 := by
      rw [← land_div_two, hym]
    rcases Nat.mod_two_eq_zero_or_one m with hm | hm
    · have hyz : y % 2 = 0 := by
        rcases Nat.mod_two_eq_zero_or_one y with h0 | h1
        · exact h0
        · exact absurd (odd_of_land_eq hym h1) (by omega)
      simp only [blockChars, popcountLoop, hm, hyz]
      simpa using ih (y / 2) (m / 2) hdiv
    · have h2 := ih (y / 2) (m / 2) hdiv
      rcases Nat.mod_two_eq_zero_or_one y with hy0 | hy1
      · simp only [blockChars, popcountLoop, hm, hy0]
        simp [h2]
      · simp only [blockChars, popcountLoop, hm, hy1]
        simp [h2]
        omega

/-- The `'1'` characters of the whole string are exactly the set masked bits,
block by block. -/
theorem toStringGo_count_ones :
    ∀ bs ms : List Nat, (toStringGo bs ms).count '1' = countGo bs ms := by
  intro bs
  induction bs with
  | nil => intro ms; cases ms <;> rfl
  | cons b bs ih =>
    intro ms
    cases ms with
    | nil => rfl
    | cons m ms =>
      simp only [toStringGo, countGo, List.count_append, List.count_reverse,
        ih ms, blockChars_count_ones BLOCK_SIZE (b &&& m) m (land_land_self b m)]
      omega

/-- C6: `count()` equals the number of `'1'` characters in `to_string()`,
for every vector — in particular for vectors whose last block carries
arbitrary garbage above the significant bits, since both operations mask
each block with `m_mask` before inspecting it. -/
theorem count_eq_toString_ones (v : RuntimeBitset) :
    countFn v = (to_string v).count '1' :=
  (toStringGo_count_ones v.m_bits v.m_mask).symm

/-- `popcountLoop` of a zero block is zero. -/
theorem popcountLoop_zero (j : Nat) : popcountLoop 0 j = 0 := by
  induction j with
  | zero => rfl
  | succ j ih => simp [popcountLoop, ih]

/-- `popcountLoop` counts the `b` low set bits of `2 ^ b - 1`. -/
theorem popcountLoop_two_pow_sub_one :
    ∀ j b : Nat, b ≤ j → popcountLoop (2 ^ b - 1) j = b := by
  intro j
  induction j with
  | zero =>
    intro b hb
    have hb0 : b = 0 := by omega
    subst hb0; rfl
  | succ j ih =>
    intro b hb
    cases b with
    | zero => simpa using popcountLoop_zero (j + 1)
    | succ k =>
      have h2 : (2 : Nat) ^ (k + 1) = 2 ^ k * 2 := pow_succ 2 k
      have hp : 0 < (2 : Nat) ^ k := pow_pos (by omega) k
      have hodd : (2 ^ (k + 1) - 1) % 2 = 1 := by omega
      have hdiv : (2 ^ (k + 1) - 1) / 2 = 2 ^ k - 1 := by omega
      simp only [popcountLoop, hodd, hdiv]
      rw [ih k (by omega)]
      simp [Nat.add_comm]

/-- `popcountLoop` of a full mask is the block width. -/
theorem popcountLoop_all : popcountLoop ALL_BITS_ONE BLOCK_SIZE = BLOCK_SIZE :=
  popcountLoop_two_pow_sub_one BLOCK_SIZE BLOCK_SIZE le_rfl

/-- `getLastMask b` has exactly `b` low bits set when `b ≤ BLOCK_SIZE`. -/
theorem getLastMask_eq {b : Nat} (hb2 : b ≤ BLOCK_SIZE) :
    getLastMask b = 2 ^ b - 1 := by
  have h64 : BLOCK_SIZE = 64 := rfl
  unfold getLastMask ALL_BITS_ONE
  apply Nat.eq_of_testBit_eq
  intro i
  rw [Nat.testBit_shiftRight, Nat.testBit_two_pow_sub_one,
    Nat.testBit_two_pow_sub_one]
  rw [decide_eq_decide]
  omega

/-- The full mask absorbs any word-width value under bitwise and. -/
theorem all_and_of_lt {x : Nat} (hx : x < 2 ^ BLOCK_SIZE) :
    ALL_BITS_ONE &&& x = x := by
  unfold ALL_BITS_ONE
  rw [Nat.and_comm]
  exact Nat.and_pow_two_sub_one_of_lt_two_pow hx

/-- Overwriting the last entry of a replicated list appends it instead. -/
theorem replicate_set_last (a x : Nat) :
    ∀ m : Nat, (List.replicate (m + 1) a).set m x = List.replicate m a ++ [x] := by
  intro m
  induction m with
  | zero => rfl
  | succ k ih =>
    rw [List.replicate_succ]
    show a :: (List.replicate (k + 1) a).set k x
      = List.replicate (k + 1) a ++ [x]
    rw [ih, List.replicate_succ]
    rfl

/-- `count`'s block loop over all-ones data and the standard mask shape. -/
theorem countGo_repl (L : Nat) :
    ∀ m : Nat,
      countGo (List.replicate (m + 1) ALL_BITS_ONE)
          (List.replicate m ALL_BITS_ONE ++ [L])
        = m * BLOCK_SIZE + popcountLoop (ALL_BITS_ONE &&& L) BLOCK_SIZE := by
  intro m
  induction m with
  | zero => simp [countGo]
  | succ k ih =>
    have hg1 : List.replicate (k + 1 + 1) ALL_BITS_ONE
        = ALL_BITS_ONE :: List.replicate (k + 1) ALL_BITS_ONE :=
      List.replicate_succ ..
    have hg2 : List.replicate (k + 1) ALL_BITS_ONE ++ [L]
        = ALL_BITS_ONE :: (List.replicate k ALL_BITS_ONE ++ [L]) := by
      rw [List.replicate_succ]; rfl
    rw [hg1, hg2]
    simp only [countGo]
    rw [ih, Nat.and_self, popcountLoop_all]
    have h64 : BLOCK_SIZE = 64 := rfl
    rw [h64]
    omega

/-- `all`'s block loop over all-ones data and the standard mask shape. -/
theorem allGo_repl (L : Nat) (hL : ALL_BITS_ONE &&& L = L) :
    ∀ m : Nat,
      allGo (List.replicate (m + 1) ALL_BITS_ONE)
          (List.replicate m ALL_BITS_ONE ++ [L])
        = true := by
  intro m
  induction m with
  | zero => simp [allGo, hL]
  | succ k ih =>
    rw [List.replicate_succ, List.replicate_succ]
    simp only [List.cons_append, allGo]
    rw [Nat.and_self]
    simpa using ih

/-- `none`'s block loop over all-ones data and the standard mask shape. -/
theorem noneGo_repl (L : Nat) (hL0 : ALL_BITS_ONE &&& L ≠ 0) :
    ∀ m : Nat,
      noneGo (List.replicate (m + 1) ALL_BITS_ONE)
          (List.replicate m ALL_BITS_ONE ++ [L])
        = false := by
  intro m
  cases m with
  | zero => simp [noneGo, hL0]
  | succ k =>
    rw [List.replicate_succ, List.replicate_succ]
    simp only [List.cons_append, noneGo]
    rw [Nat.and_self]
    have hall : ALL_BITS_ONE ≠ 0 := by decide
    simp [hall]

/-- C10: after the whole-vector `set()` — which writes all-ones into every
block, including the non-significant high bits of the last block — the
masked read operations behave as if exactly the significant bits were set:
`all()` is true, `count()` equals `size()`, and `none()` is false. -/
theorem set_then_masked_reads (v : RuntimeBitset) (h : WF v) :
    allFn (setAll v) = true ∧ countFn (setAll v) = v.m_size ∧
      noneFn (setAll v) = false := by
  obtain ⟨hs, hb, hm, _hlen⟩ := h
  have h64 : BLOCK_SIZE = 64 := rfl
  have hB : v.m_blocks = (v.m_size + 63) / 64 := by
    rw [hb]; unfold getNumberBlocks; rw [h64]
  obtain ⟨m, hmk⟩ : ∃ m, v.m_blocks = m + 1 := ⟨v.m_blocks - 1, by omega⟩
  have hb1 : 1 ≤ v.m_size - m * 64 := by omega
  have hb64 : v.m_size - m * 64 ≤ 64 := by omega
  have hpow : (2 : Nat) ^ (v.m_size - m * 64) ≤ 2 ^ 64 :=
    Nat.pow_le_pow_right (by omega) hb64
  have hpow0 : 0 < (2 : Nat) ^ (v.m_size - m * 64) := pow_pos (by omega) _
  have hpow2 : 2 ≤ (2 : Nat) ^ (v.m_size - m * 64) := by
    calc (2 : Nat) = 2 ^ 1 := (pow_one 2).symm
    _ ≤ 2 ^ (v.m_size - m * 64) := Nat.pow_le_pow_right (by omega) hb1
  have hmask : v.m_mask
      = List.replicate m ALL_BITS_ONE ++ [2 ^ (v.m_size - m * 64) - 1] := by
    rw [hm, hmk]
    unfold buildMask
    have hred : m + 1 - 1 = m := by omega
    rw [hred, h64, replicate_set_last, getLastMask_eq (by rw [h64]; omega)]
  have hL : ALL_BITS_ONE &&& (2 ^ (v.m_size - m * 64) - 1)
      = 2 ^ (v.m_size - m * 64) - 1 := by
    apply all_and_of_lt
    show 2 ^ (v.m_size - m * 64) - 1 < 2 ^ 64
    omega
  refine ⟨?_, ?_, ?_⟩
  · show allGo (List.replicate v.m_blocks ALL_BITS_ONE) v.m_mask = true
    rw [hmk, hmask]
    exact allGo_repl _ hL m
  · show countGo (List.replicate v.m_blocks ALL_BITS_ONE) v.m_mask = v.m_size
    rw [hmk, hmask, countGo_repl, hL, h64,
      popcountLoop_two_pow_sub_one 64 _ hb64]
    omega
  · show noneGo (List.replicate v.m_blocks ALL_BITS_ONE) v.m_mask = false
    rw [hmk, hmask]
    apply noneGo_repl
    rw [hL]
    omega

theorem set_then_masked_reads_witness :
    WF sample70 ∧
      (allFn (setAll sample70) = true ∧
        countFn (setAll sample70) = sample70.m_size ∧
        noneFn (setAll sample70) = false) :=
  ⟨by decide, set_then_masked_reads sample70 (by decide)⟩

end RunBitset
